import Mathlib

/-!
Shallow embedding of the LAS-Player state/event core
(`src/core/StateManager.js`, `src/core/EventBus.js`,
`src/utils/helpers.js`, `src/utils/constants.js`) and theorems about
its playlist
navigation, shuffle, persistence and event behaviour.

JavaScript numbers used as playlist indices are embedded as `Int`
(all index arithmetic in the source stays integral); stored
key-value entries are embedded as `StoreVal` (a JS value is either
a number or a string in every persisted slot).  Tracks are opaque:
the embedding is polymorphic in the track type `α`.
-/

namespace LASPlayer

/-- `REPEAT_MODE` from `src/utils/constants.js`: `off`, `all`, `one`. -/
inductive RepeatMode : Type
  | off
  | all
  | one
deriving DecidableEq

/-- A JSON-representable JavaScript value in a persisted slot: a
number, a string, or `null` (what `JSON.parse` of a stored item can
yield for the player's settings, and the default `storageGet` falls
back to). -/
inductive StoreVal : Type
  | num (q : ℚ)
  | str (s : String)
  | null
deriving DecidableEq

/-- JavaScript truthiness on a `StoreVal` (`0`, `""` and `null` are
falsy). -/
def jsTruthy : StoreVal → Bool
  | .num q => decide (q ≠ 0)
  | .str s => decide (s ≠ "")
  | .null => false

/-- The storage keys `PLAYER_CONFIG.STORAGE_KEYS` from constants.js. -/
def VOLUME_KEY : String := "las-player-volume"

def THEME_KEY : String := "las-player-theme"

def PLAYBACK_SPEED_KEY : String := "las-player-speed"

/-- Event topic `EVENTS.PLAYLIST_UPDATE`. -/
def PLAYLIST_UPDATE : String := "playlist:update"

/-- Event topic `EVENTS.TRACK_CHANGE`. -/
def TRACK_CHANGE : String := "playlist:trackchange"

/-- Event topic `EVENTS.SHUFFLE_TOGGLE`. -/
def SHUFFLE_TOGGLE : String := "playlist:shuffle"

/-- Event topic `EVENTS.REPEAT_TOGGLE`. -/
def REPEAT_TOGGLE : String := "playlist:repeat"

/-- The fields of `this.state` in StateManager.js that the playlist /
persistence core reads or writes. `α` is the opaque track type. -/
structure PlayerState (α : Type) where
  playlist : List α
  currentTrackIndex : Int
  shuffleEnabled : Bool
  repeatMode : RepeatMode
  shuffledOrder : List Int
  volume : StoreVal
  theme : StoreVal
  playbackRate : StoreVal
deriving DecidableEq

/-- The durable-storage environment seen by `src/utils/helpers.js`
(`src/unnamed/part_006`): the `localStorage` contents (`data`, string
keys to string items, `none` when absent); whether a `setItem` call
with a given key and item succeeds (`writeOk = false` models the
exception a full or unavailable store throws); and the host engine's
JSON codec — `stringify` is `JSON.stringify` on the player's setting
values, `parse` is `JSON.parse`, where `none` models a thrown parse
error and `some .null` a parsed JSON `null`.  The codec and the
failure behaviour are environment components because
`JSON.stringify`/`JSON.parse`/`localStorage` are host built-ins, not
code of this repository. -/
structure Storage where
  data : String → Option String
  writeOk : String → String → Bool
  stringify : StoreVal → String
  parse : String → Option StoreVal

/-- `storageGet(key, defaultValue = null)` from helpers.js
(`src/unnamed/part_006`): `localStorage.getItem(key)`, then
`JSON.parse(item)` when the item is not null, else `defaultValue`;
when the `try`-block throws, the error is logged and swallowed and
`defaultValue` is returned. -/
def storageGet (g : Storage) (k : String) (defaultValue : StoreVal) :
    StoreVal :=
  match g.data k with
  | some item =>
      match g.parse item with
      | some v => v
      | none => defaultValue
  | none => defaultValue

/-- `storageSet(key, value)` from helpers.js (`src/unnamed/part_006`):
`localStorage.setItem(key, JSON.stringify(value))`; when `setItem`
throws (e.g. quota exceeded) the error is logged and swallowed,
leaving the store unchanged. -/
def storageSet (g : Storage) (k : String) (v : StoreVal) : Storage :=
  let item := g.stringify v
  if g.writeOk k item then
    { g with data := fun t => if t = k then some item else g.data t }
  else g

/-- A storage environment with nothing stored, every write accepted
and a codec that parses nothing (the stand-in environment for claims
that never read storage). -/
def emptyStorage : Storage :=
  ⟨fun _ => none, fun _ _ => true, fun _ => "", fun _ => none⟩

/-- A StateManager instance: its mutable state plus the durable storage
it persists into. -/
structure Store (α : Type) where
  state : PlayerState α
  storage : Storage

/-- A partial update passed to `StateManager.set` (`Object.assign`
source object): each field either absent or supplying a new value. -/
structure Updates (α : Type) where
  playlist : Option (List α)
  currentTrackIndex : Option Int
  shuffleEnabled : Option Bool
  repeatMode : Option RepeatMode
  shuffledOrder : Option (List Int)
  volume : Option StoreVal
  theme : Option StoreVal
  playbackRate : Option StoreVal

/-- The empty update (no fields). -/
def Updates.empty {α : Type} : Updates α :=
  ⟨none, none, none, none, none, none, none, none⟩

/-- `Object.assign(this.state, updates)`: last-write-wins per field. -/
def applyUpdates {α : Type} (s : PlayerState α) (u : Updates α) : PlayerState α where
  playlist := u.playlist.getD s.playlist
  currentTrackIndex := u.currentTrackIndex.getD s.currentTrackIndex
  shuffleEnabled := u.shuffleEnabled.getD s.shuffleEnabled
  repeatMode := u.repeatMode.getD s.repeatMode
  shuffledOrder := u.shuffledOrder.getD s.shuffledOrder
  volume := u.volume.getD s.volume
  theme := u.theme.getD s.theme
  playbackRate := u.playbackRate.getD s.playbackRate

/-- `StateManager.persistState(updates)`: writes volume, theme and
playbackRate to storage under their fixed keys when present in the
update; nothing else is written. -/
def persistState (g : Storage) {α : Type} (u : Updates α) : Storage :=
  let g1 := match u.volume with
    | some v => storageSet g VOLUME_KEY v
    | none => g
  let g2 := match u.theme with
    | some v => storageSet g1 THEME_KEY v
    | none => g1
  match u.playbackRate with
    | some v => storageSet g2 PLAYBACK_SPEED_KEY v
    | none => g2

namespace StateManager

/-- `StateManager.set(updates, eventName?)`: merge the updates into the
state, persist the persisted subset, and (when an event name is given)
emit that event.  The returned list is the sequence of event topics
emitted by the call. -/
def set {α : Type} (st : Store α) (u : Updates α) (ev : Option String) :
    Store α × List String :=
  (⟨applyUpdates st.state u, persistState st.storage u⟩,
    match ev with
    | some e => [e]
    | none => [])

/-- The initial `this.state` of the constructor (playlist/persistence
fields; defaults from `PLAYER_CONFIG`). -/
def initialState (α : Type) : PlayerState α where
  playlist := []
  currentTrackIndex := -1
  shuffleEnabled := false
  repeatMode := .off
  shuffledOrder := []
  volume := .num 1
  theme := .str "dark"
  playbackRate := .num 1

/-- `StateManager.loadPersistedState()`: overlay volume, theme and
playback speed from storage.  `storageGet` is called with its default
(null); volume and speed are applied whenever the read value is not
null (`!== null`), theme only when it is truthy (`if (savedTheme)`).
A stored JSON `null` or a failed read yields null and leaves the
default in place. -/
def loadPersistedState {α : Type} (g : Storage) (s : PlayerState α) : PlayerState α :=
  let savedVolume := storageGet g VOLUME_KEY .null
  let s1 := if savedVolume ≠ .null then { s with volume := savedVolume } else s
  let savedTheme := storageGet g THEME_KEY .null
  let s2 := if jsTruthy savedTheme then { s1 with theme := savedTheme } else s1
  let savedSpeed := storageGet g PLAYBACK_SPEED_KEY .null
  if savedSpeed ≠ .null then { s2 with playbackRate := savedSpeed } else s2

/-- The `StateManager` constructor over a given durable storage:
default state overlaid with the persisted values. -/
def mk (α : Type) (g : Storage) : Store α :=
  ⟨loadPersistedState g (initialState α), g⟩

/-- `StateManager.get()` (no key): returns a shallow copy of the whole
state; reads only, so the store and the emitted-events list are
returned unchanged/empty. -/
def get {α : Type} (st : Store α) : PlayerState α × Store α × List String :=
  (st.state, st, [])

/-- `StateManager.getCurrentTrack()`: `playlist[currentTrackIndex]`
when it is `>= 0` (undefined — `none` — past the end), else null. -/
def getCurrentTrack {α : Type} (st : Store α) : Option α × Store α × List String :=
  ((if st.state.currentTrackIndex ≥ 0 then
      st.state.playlist.get? st.state.currentTrackIndex.toNat
    else none), st, [])

end StateManager

/-- JavaScript `Array.prototype.indexOf`: the first position holding
the value, or `-1` when absent. -/
def jsIndexOf {α : Type} [DecidableEq α] : List α → α → Int
  | [], _ => -1
  | a :: as, x =>
      if a = x then 0
      else
        let r := jsIndexOf as x
        if r = -1 then -1 else r + 1

/-- `playlist.map((_, i) => i)`: the indices `0, …, n-1` as JS numbers. -/
def rangeInt (n : Nat) : List Int := (List.range n).map Int.ofNat

/-- `array.filter((_, i) => i !== index)`: keep the entries whose
position differs from `index`.  `p` is the position of the list head. -/
def filterNotIdxFrom {α : Type} (index : Int) : Nat → List α → List α
  | _, [] => []
  | p, x :: xs =>
      if (p : Int) = index then filterNotIdxFrom index (p + 1) xs
      else x :: filterNotIdxFrom index (p + 1) xs

/-- `array.filter((_, i) => i !== index)` starting at position 0. -/
def filterNotIdx {α : Type} (l : List α) (index : Int) : List α :=
  filterNotIdxFrom index 0 l

/-- `[a[i], a[j]] = [a[j], a[i]]`: both reads happen before either
write. -/
def swapIdx (l : List Int) (i j : Nat) : List Int :=
  (l.set i (l.getD j 0)).set j (l.getD i 0)

/-- The Fisher–Yates loop of `toggleShuffle`:
`for (i = …; i > 0; i--) swap(i, g i)` where `g i` is the random draw
`Math.floor(Math.random() * (i + 1))` at step `i`. -/
def fyLoop (g : Nat → Nat) : Nat → List Int → List Int
  | 0, l => l
  | i + 1, l => fyLoop g i (swapIdx l (i + 1) (g (i + 1)))

/-- The full Fisher–Yates shuffle of `toggleShuffle`, starting at
`indices.length - 1`. -/
def fisherYates (g : Nat → Nat) (l : List Int) : List Int :=
  fyLoop g (l.length - 1) l

namespace StateManager

/-- `StateManager.setPlaylist(playlist)`: replace the playlist, reset
`currentTrackIndex` to 0 (or -1 when empty), emit `PLAYLIST_UPDATE`. -/
def setPlaylist {α : Type} (st : Store α) (playlist : List α) :
    Store α × List String :=
  let r := set st
    { (Updates.empty : Updates α) with
      playlist := some playlist
      currentTrackIndex := some (if playlist.length > 0 then 0 else -1) }
    none
  (r.1, r.2 ++ [PLAYLIST_UPDATE])

/-- `StateManager.addToPlaylist(tracks)`: append, then delegate to
`setPlaylist`. -/
def addToPlaylist {α : Type} (st : Store α) (tracks : List α) :
    Store α × List String :=
  setPlaylist st (st.state.playlist ++ tracks)

/-- `StateManager.removeFromPlaylist(index)`: filter out the entry at
`index`, adjust `currentTrackIndex` (decrement when the removed index
was before it, `Math.min` clamp when it was it), emit
`PLAYLIST_UPDATE`. -/
def removeFromPlaylist {α : Type} (st : Store α) (index : Int) :
    Store α × List String :=
  let newPlaylist := filterNotIdx st.state.playlist index
  let c := st.state.currentTrackIndex
  let newIndex :=
    if index < c then c - 1
    else if index = c then min c ((newPlaylist.length : Int) - 1)
    else c
  let r := set st
    { (Updates.empty : Updates α) with
      playlist := some newPlaylist
      currentTrackIndex := some newIndex }
    none
  (r.1, r.2 ++ [PLAYLIST_UPDATE])

/-- `StateManager.setCurrentTrack(index)`: bounds-checked; on success
update the index and emit `TRACK_CHANGE`, otherwise do nothing. -/
def setCurrentTrack {α : Type} (st : Store α) (index : Int) :
    Store α × List String :=
  if index ≥ 0 ∧ index < (st.state.playlist.length : Int) then
    let r := set st
      { (Updates.empty : Updates α) with currentTrackIndex := some index } none
    (r.1, r.2 ++ [TRACK_CHANGE])
  else (st, [])

/-- `StateManager.getNextTrackIndex()`: repeat-one returns the current
index; shuffle mode steps through `shuffledOrder`, wrapping to its
head only under repeat-all; sequential mode steps `current + 1`,
wrapping to 0 only under repeat-all. -/
def getNextTrackIndex {α : Type} (s : PlayerState α) : Int :=
  if s.playlist.length = 0 then -1
  else if s.repeatMode = .one then s.currentTrackIndex
  else if s.shuffleEnabled ∧ s.shuffledOrder.length > 0 then
    let currentShufflePos := jsIndexOf s.shuffledOrder s.currentTrackIndex
    let nextShufflePos := currentShufflePos + 1
    if nextShufflePos ≥ (s.shuffledOrder.length : Int) then
      if s.repeatMode = .all then s.shuffledOrder.headD 0 else -1
    else s.shuffledOrder.getD nextShufflePos.toNat 0
  else
    let nextIndex := s.currentTrackIndex + 1
    if nextIndex ≥ (s.playlist.length : Int) then
      if s.repeatMode = .all then 0 else -1
    else nextIndex

/-- `StateManager.getPreviousTrackIndex()`: shuffle mode steps back
through `shuffledOrder`, wrapping to its last entry whenever the
position would go below 0; sequential mode returns `current - 1`,
wrapping to the last playlist index whenever `current ≤ 0`. -/
def getPreviousTrackIndex {α : Type} (s : PlayerState α) : Int :=
  if s.playlist.length = 0 then -1
  else if s.shuffleEnabled ∧ s.shuffledOrder.length > 0 then
    let currentShufflePos := jsIndexOf s.shuffledOrder s.currentTrackIndex
    let prevShufflePos := currentShufflePos - 1
    if prevShufflePos ≥ 0 then s.shuffledOrder.getD prevShufflePos.toNat 0
    else s.shuffledOrder.getD (s.shuffledOrder.length - 1) 0
  else if s.currentTrackIndex > 0 then s.currentTrackIndex - 1
  else (s.playlist.length : Int) - 1

/-- The store/event wrapper of `getNextTrackIndex` (the method reads
state only: no mutation, no emit). -/
def getNextTrackIndexOp {α : Type} (st : Store α) :
    Int × Store α × List String :=
  (getNextTrackIndex st.state, st, [])

/-- The store/event wrapper of `getPreviousTrackIndex` (the method
reads state only: no mutation, no emit). -/
def getPreviousTrackIndexOp {α : Type} (st : Store α) :
    Int × Store α × List String :=
  (getPreviousTrackIndex st.state, st, [])

/-- `StateManager.toggleShuffle()`: on enable, Fisher–Yates-shuffle all
indices except the current one (random draws `g`, where `g i` is the
draw at loop step `i`) and prepend the current index; on disable,
clear the order.  Emits `SHUFFLE_TOGGLE`. -/
def toggleShuffle {α : Type} (st : Store α) (g : Nat → Nat) :
    Store α × List String :=
  let shuffleEnabled := !st.state.shuffleEnabled
  let shuffledOrder : List Int :=
    if shuffleEnabled then
      let indices :=
        (rangeInt st.state.playlist.length).filter
          fun i => i ≠ st.state.currentTrackIndex
      st.state.currentTrackIndex :: fisherYates g indices
    else []
  let r := set st
    { (Updates.empty : Updates α) with
      shuffleEnabled := some shuffleEnabled
      shuffledOrder := some shuffledOrder }
    none
  (r.1, r.2 ++ [SHUFFLE_TOGGLE])

/-- `StateManager.cycleRepeatMode()`: `modes[(modes.indexOf(m)+1) % 3]`,
then emit `REPEAT_TOGGLE`. -/
def cycleRepeatMode {α : Type} (st : Store α) : Store α × List String :=
  let modes : List RepeatMode := [.off, .all, .one]
  let currentIndex := jsIndexOf modes st.state.repeatMode
  let nextMode := modes.getD ((currentIndex + 1) % (modes.length : Int)).toNat .off
  let r := set st
    { (Updates.empty : Updates α) with repeatMode := some nextMode } none
  (r.1, r.2 ++ [REPEAT_TOGGLE])

end StateManager

/-- `EventBus` from EventBus.js: a map from event names to the `Set` of
subscribed callbacks.  A JS `Set` is embedded as its insertion-ordered
list of distinct elements; callbacks are opaque values of type `κ`
compared by identity (`DecidableEq κ`). -/
structure EventBus (κ : Type) where
  events : String → Option (List κ)

namespace EventBus

/-- The empty bus (`new EventBus()`). -/
def empty (κ : Type) : EventBus κ := ⟨fun _ => none⟩

/-- `EventBus.on(event, callback)`: create the `Set` when absent, then
`Set.add` the callback (a no-op when already present).  The returned
unsubscribe capability is `() => this.off(event, callback)`, determined
by the `(event, callback)` pair. -/
def «on» {κ : Type} [DecidableEq κ] (b : EventBus κ) (event : String) (callback : κ) :
    EventBus κ :=
  let cur := (b.events event).getD []
  let cur' := if callback ∈ cur then cur else cur ++ [callback]
  ⟨fun t => if t = event then some cur' else b.events t⟩

/-- `EventBus.off(event, callback)`: `Set.delete` of the callback when
the event has a listener set. -/
def off {κ : Type} [DecidableEq κ] (b : EventBus κ) (event : String) (callback : κ) :
    EventBus κ :=
  match b.events event with
  | none => b
  | some l => ⟨fun t => if t = event then some (l.erase callback) else b.events t⟩

/-- `EventBus.emit(event, data)`: the sequence of callbacks invoked, in
set-iteration (insertion) order; nothing when the event is unknown.
`emit` itself never changes the registrations. -/
def emitCalls {κ : Type} (b : EventBus κ) (event : String) : List κ :=
  (b.events event).getD []

/-- `EventBus.listenerCount(event)`: the size of the listener set, 0
when absent. -/
def listenerCount {κ : Type} (b : EventBus κ) (event : String) : Nat :=
  ((b.events event).getD []).length

end EventBus

/-! ### Helper lemmas -/

theorem jsIndexOf_mem_bounds {α : Type} [DecidableEq α] :
    ∀ {l : List α} {x : α}, x ∈ l →
      0 ≤ jsIndexOf l x ∧ jsIndexOf l x < (l.length : Int) := by
  intro l
  induction l with
  | nil => simp
  | cons a as ih =>
    intro x hx
    by_cases hax : a = x
    · simp only [jsIndexOf, if_pos hax]
      constructor
      · exact le_refl 0
      · have : (0 : Int) < (as.length : Int) + 1 := by positivity
        simp only [List.length_cons]
        push_cast
        omega
    · have hxas : x ∈ as := (List.mem_cons.mp hx).resolve_left fun h => hax h.symm
      obtain ⟨h1, h2⟩ := ih hxas
      have hne : jsIndexOf as x ≠ -1 := by omega
      simp only [jsIndexOf, if_neg hax, if_neg hne]
      constructor
      · omega
      · simp only [List.length_cons]
        push_cast
        omega

theorem filterNotIdxFrom_out_of_range {α : Type} (index : Int) :
    ∀ (l : List α) (p : Nat),
      (index < (p : Int) ∨ (p : Int) + (l.length : Int) ≤ index) →
      filterNotIdxFrom index p l = l := by
  intro l
  induction l with
  | nil => intro p _; rfl
  | cons x xs ih =>
    intro p hp
    have hne : ¬((p : Int) = index) := by
      simp only [List.length_cons] at hp
      push_cast at hp
      omega
    have hrec : filterNotIdxFrom index (p + 1) xs = xs := by
      apply ih
      simp only [List.length_cons] at hp
      push_cast
      push_cast at hp
      omega
    simp [filterNotIdxFrom, hne, hrec]

theorem filterNotIdxFrom_eraseIdx {α : Type} :
    ∀ (l : List α) (p k : Nat),
      filterNotIdxFrom ((p + k : Nat) : Int) p l = l.eraseIdx k := by
  intro l
  induction l with
  | nil => intro p k; rfl
  | cons x xs ih =>
    intro p k
    cases k with
    | zero =>
      have hp : ((p : Int)) = ((p + 0 : Nat) : Int) := by push_cast; omega
      have hout : filterNotIdxFrom ((p + 0 : Nat) : Int) (p + 1) xs = xs := by
        apply filterNotIdxFrom_out_of_range
        push_cast
        omega
      simp only [filterNotIdxFrom, List.eraseIdx, if_pos hp.symm]
      simpa using hout
    | succ k =>
      have hne : ¬((p : Int) = ((p + (k + 1) : Nat) : Int)) := by push_cast; omega
      have hrec : filterNotIdxFrom ((p + (k + 1) : Nat) : Int) (p + 1) xs =
          xs.eraseIdx k := by
        have : ((p + (k + 1) : Nat) : Int) = (((p + 1) + k : Nat) : Int) := by
          push_cast; omega
        rw [this]
        exact ih (p + 1) k
      have hk : ¬((k : Int) + 1 = 0) := by omega
      simp [filterNotIdxFrom, hne, List.eraseIdx, hk]
      exact_mod_cast hrec

theorem filterNotIdx_eraseIdx {α : Type} (l : List α) (index : Int)
    (h0 : 0 ≤ index) : filterNotIdx l index = l.eraseIdx index.toNat := by
  have h2 := filterNotIdxFrom_eraseIdx l 0 index.toNat
  have h3 : ((0 + index.toNat : Nat) : Int) = index := by
    push_cast
    omega
  rw [h3] at h2
  exact h2

theorem filterNotIdx_out_of_range {α : Type} (l : List α) (index : Int)
    (h : index < 0 ∨ (l.length : Int) ≤ index) : filterNotIdx l index = l := by
  apply filterNotIdxFrom_out_of_range
  push_cast
  omega

/-! ### Result shapes of the mutating operations -/

theorem setPlaylist_result {α : Type} (st : Store α) (pl : List α) :
    (StateManager.setPlaylist st pl).1.state =
      { st.state with
          playlist := pl
          currentTrackIndex := if pl.length > 0 then 0 else -1 } ∧
    (StateManager.setPlaylist st pl).1.storage = st.storage ∧
    (StateManager.setPlaylist st pl).2 = [PLAYLIST_UPDATE] :=
  ⟨rfl, rfl, rfl⟩

theorem removeFromPlaylist_result {α : Type} (st : Store α) (i : Int) :
    (StateManager.removeFromPlaylist st i).1.state =
      { st.state with
          playlist := filterNotIdx st.state.playlist i
          currentTrackIndex :=
            if i < st.state.currentTrackIndex then st.state.currentTrackIndex - 1
            else if i = st.state.currentTrackIndex then
              min st.state.currentTrackIndex
                (((filterNotIdx st.state.playlist i).length : Int) - 1)
            else st.state.currentTrackIndex } ∧
    (StateManager.removeFromPlaylist st i).1.storage = st.storage ∧
    (StateManager.removeFromPlaylist st i).2 = [PLAYLIST_UPDATE] :=
  ⟨rfl, rfl, rfl⟩

theorem toggleShuffle_result {α : Type} (st : Store α) (g : Nat → Nat) :
    (StateManager.toggleShuffle st g).1.state =
      { st.state with
          shuffleEnabled := !st.state.shuffleEnabled
          shuffledOrder :=
            if !st.state.shuffleEnabled then
              st.state.currentTrackIndex ::
                fisherYates g
                  ((rangeInt st.state.playlist.length).filter
                    fun i => i ≠ st.state.currentTrackIndex)
            else [] } ∧
    (StateManager.toggleShuffle st g).1.storage = st.storage ∧
    (StateManager.toggleShuffle st g).2 = [SHUFFLE_TOGGLE] :=
  ⟨rfl, rfl, rfl⟩

theorem cycleRepeatMode_result {α : Type} (st : Store α) :
    (StateManager.cycleRepeatMode st).1.state.playlist = st.state.playlist ∧
    (StateManager.cycleRepeatMode st).1.state.currentTrackIndex =
      st.state.currentTrackIndex ∧
    (StateManager.cycleRepeatMode st).1.state.shuffledOrder =
      st.state.shuffledOrder ∧
    (StateManager.cycleRepeatMode st).2 = [REPEAT_TOGGLE] :=
  ⟨rfl, rfl, rfl, rfl⟩

/-! ### C1: getNextTrackIndex -/

/-- **C1.** For every state, `getNextTrackIndex` returns: -1 if the
playlist is empty; else the current index if `repeatMode = one`; else,
in shuffle mode (shuffle enabled, non-empty order, current index
present in the order), the element following the current index's
position in `shuffledOrder`, wrapping to the order's first element when
that position is last and `repeatMode = all`, and -1 when it is last
and repeat is not `all`; else (sequential mode) `currentTrackIndex + 1`,
wrapping to 0 only under `repeatMode = all`, and -1 otherwise. -/
theorem getNextTrackIndex_spec {α : Type} (s : PlayerState α) :
    (s.playlist = [] → StateManager.getNextTrackIndex s = -1) ∧
    (s.playlist ≠ [] → s.repeatMode = .one →
      StateManager.getNextTrackIndex s = s.currentTrackIndex) ∧
    (s.playlist ≠ [] → s.repeatMode ≠ .one → s.shuffleEnabled = true →
      s.shuffledOrder ≠ [] → s.currentTrackIndex ∈ s.shuffledOrder →
      (jsIndexOf s.shuffledOrder s.currentTrackIndex + 1 <
          (s.shuffledOrder.length : Int) →
        StateManager.getNextTrackIndex s =
          s.shuffledOrder.getD
            (jsIndexOf s.shuffledOrder s.currentTrackIndex + 1).toNat 0) ∧
      (jsIndexOf s.shuffledOrder s.currentTrackIndex + 1 =
          (s.shuffledOrder.length : Int) →
        (s.repeatMode = .all →
          StateManager.getNextTrackIndex s = s.shuffledOrder.headD 0) ∧
        (s.repeatMode ≠ .all → StateManager.getNextTrackIndex s = -1))) ∧
    (s.playlist ≠ [] → s.repeatMode ≠ .one →
      ¬(s.shuffleEnabled = true ∧ s.shuffledOrder ≠ []) →
      (s.currentTrackIndex + 1 < (s.playlist.length : Int) →
        StateManager.getNextTrackIndex s = s.currentTrackIndex + 1) ∧
      ((s.playlist.length : Int) ≤ s.currentTrackIndex + 1 →
        (s.repeatMode = .all → StateManager.getNextTrackIndex s = 0) ∧
        (s.repeatMode ≠ .all → StateManager.getNextTrackIndex s = -1))) := by
  have hlen : s.playlist.length = 0 ↔ s.playlist = [] := List.length_eq_zero
  refine ⟨fun h => ?_, fun h h1 => ?_, fun h h1 h2 h3 hmem => ?_, fun h h1 h2 => ?_⟩
  · simp [StateManager.getNextTrackIndex, hlen.mpr h]
  · simp [StateManager.getNextTrackIndex, hlen.not.mpr h, h1]
  · have hord : s.shuffledOrder.length > 0 := List.length_pos.mpr h3
    have hsh : s.shuffleEnabled ∧ s.shuffledOrder.length > 0 := ⟨h2, hord⟩
    obtain ⟨hb1, hb2⟩ := jsIndexOf_mem_bounds hmem
    constructor
    · intro hlt
      have : ¬(jsIndexOf s.shuffledOrder s.currentTrackIndex + 1 ≥
          (s.shuffledOrder.length : Int)) := by omega
      simp [StateManager.getNextTrackIndex, hlen.not.mpr h, h1, hsh, this]
    · intro heq
      have : jsIndexOf s.shuffledOrder s.currentTrackIndex + 1 ≥
          (s.shuffledOrder.length : Int) := by omega
      constructor
      · intro hall
        simp [StateManager.getNextTrackIndex, hlen.not.mpr h, h1, hsh, this, hall]
      · intro hnall
        simp [StateManager.getNextTrackIndex, hlen.not.mpr h, h1, hsh, this, hnall]
  · have hC : ¬(s.shuffleEnabled = true ∧ 0 < s.shuffledOrder.length) := by
      intro hx
      exact h2 ⟨hx.1, fun hnil => by simp [hnil] at hx⟩
    constructor
    · intro hlt
      have : ¬(s.currentTrackIndex + 1 ≥ (s.playlist.length : Int)) := by omega
      simp [StateManager.getNextTrackIndex, hlen.not.mpr h, h1, hC, this]
    · intro hge
      have hg : s.currentTrackIndex + 1 ≥ (s.playlist.length : Int) := hge
      constructor
      · intro hall
        simp [StateManager.getNextTrackIndex, hlen.not.mpr h, h1, hC, hg, hall]
      · intro hnall
        simp [StateManager.getNextTrackIndex, hlen.not.mpr h, h1, hC, hg, hnall]

/-- Witness for C1: sequential mode, playlist of length 3, current = 2,
repeat off — the next index is -1; the spec example. -/
theorem getNextTrackIndex_spec_witness :
    StateManager.getNextTrackIndex
      (⟨[10, 20, 30], 2, false, .off, [], .num 1, .str "dark", .num 1⟩ :
        PlayerState Nat) = -1 := by
  have h := (getNextTrackIndex_spec
    (⟨[10, 20, 30], 2, false, .off, [], .num 1, .str "dark", .num 1⟩ :
      PlayerState Nat)).2.2.2
  exact ((h (by decide) (by decide) (by decide)).2 (by decide)).2 (by decide)

/-! ### C3: getPreviousTrackIndex -/

/-- **C3, counterexample.** Sequential mode (shuffle off, repeat off),
playlist of length 3, current = 0: the claim says the previous index is
-1 (no wrap unless repeat-all), but the code wraps to the last playlist
index 2 unconditionally. -/
theorem getPreviousTrackIndex_claim_counterexample :
    StateManager.getPreviousTrackIndex
        (⟨[10, 20, 30], 0, false, .off, [], .num 1, .str "dark", .num 1⟩ :
          PlayerState Nat) = 2 ∧
    ¬ StateManager.getPreviousTrackIndex
        (⟨[10, 20, 30], 0, false, .off, [], .num 1, .str "dark", .num 1⟩ :
          PlayerState Nat) = -1 := by
  constructor
  · rfl
  · decide

/-- **C3, amended.** `getPreviousTrackIndex`: -1 on an empty playlist;
in shuffle mode it returns the element before the current index's
shuffle position, always wrapping to the last shuffle position
regardless of repeat mode; in sequential mode it returns
`currentTrackIndex - 1` when `currentTrackIndex > 0` and otherwise
always wraps to the last playlist index — also regardless of repeat
mode (the claim's "-1 at position 0 unless repeat-all" does not hold). -/
theorem getPreviousTrackIndex_spec {α : Type} (s : PlayerState α) :
    (s.playlist = [] → StateManager.getPreviousTrackIndex s = -1) ∧
    (s.playlist ≠ [] → s.shuffleEnabled = true → s.shuffledOrder ≠ [] →
      s.currentTrackIndex ∈ s.shuffledOrder →
      (1 ≤ jsIndexOf s.shuffledOrder s.currentTrackIndex →
        StateManager.getPreviousTrackIndex s =
          s.shuffledOrder.getD
            (jsIndexOf s.shuffledOrder s.currentTrackIndex - 1).toNat 0) ∧
      (jsIndexOf s.shuffledOrder s.currentTrackIndex = 0 →
        StateManager.getPreviousTrackIndex s =
          s.shuffledOrder.getD (s.shuffledOrder.length - 1) 0)) ∧
    (s.playlist ≠ [] → ¬(s.shuffleEnabled = true ∧ s.shuffledOrder ≠ []) →
      (0 < s.currentTrackIndex →
        StateManager.getPreviousTrackIndex s = s.currentTrackIndex - 1) ∧
      (s.currentTrackIndex ≤ 0 →
        StateManager.getPreviousTrackIndex s = (s.playlist.length : Int) - 1)) := by
  have hlen : s.playlist.length = 0 ↔ s.playlist = [] := List.length_eq_zero
  refine ⟨fun h => ?_, fun h h1 h2 hmem => ?_, fun h h2 => ?_⟩
  · simp [StateManager.getPreviousTrackIndex, hlen.mpr h]
  · have hord : s.shuffledOrder.length > 0 := List.length_pos.mpr h2
    have hsh : s.shuffleEnabled ∧ s.shuffledOrder.length > 0 := ⟨h1, hord⟩
    constructor
    · intro hpos
      have hge : jsIndexOf s.shuffledOrder s.currentTrackIndex - 1 ≥ 0 := by omega
      simp [StateManager.getPreviousTrackIndex, hlen.not.mpr h, hsh, hge]
    · intro hzero
      have hlt : ¬(jsIndexOf s.shuffledOrder s.currentTrackIndex - 1 ≥ 0) := by
        omega
      simp [StateManager.getPreviousTrackIndex, hlen.not.mpr h, hsh, hlt]
  · have hC : ¬(s.shuffleEnabled = true ∧ 0 < s.shuffledOrder.length) := by
      intro hx
      exact h2 ⟨hx.1, fun hnil => by simp [hnil] at hx⟩
    constructor
    · intro hpos
      simp [StateManager.getPreviousTrackIndex, hlen.not.mpr h, hC, hpos]
    · intro hle
      have : ¬(0 < s.currentTrackIndex) := by omega
      simp [StateManager.getPreviousTrackIndex, hlen.not.mpr h, hC, this]

/-- Witness for C3 (amended): shuffle mode, order `[1, 2, 0]`, current
track 1 at shuffle position 0 — the previous index wraps to the last
shuffle entry 0 although repeat is off. -/
theorem getPreviousTrackIndex_spec_witness :
    StateManager.getPreviousTrackIndex
      (⟨[10, 20, 30], 1, true, .off, [1, 2, 0], .num 1, .str "dark", .num 1⟩ :
        PlayerState Nat) = 0 := by
  have h := (getPreviousTrackIndex_spec
    (⟨[10, 20, 30], 1, true, .off, [1, 2, 0], .num 1, .str "dark", .num 1⟩ :
      PlayerState Nat)).2.1
  exact (h (by decide) (by decide) (by decide) (by decide)).2 (by decide)

/-! ### C10: the query operations are pure -/

/-- **C10.** The query operations `get`, `getCurrentTrack`,
`getNextTrackIndex` and `getPreviousTrackIndex` are pure: they return
the store unchanged and emit no event. -/
theorem getters_pure {α : Type} (st : Store α) :
    (StateManager.get st).2.1 = st ∧ (StateManager.get st).2.2 = [] ∧
    (StateManager.getCurrentTrack st).2.1 = st ∧
    (StateManager.getCurrentTrack st).2.2 = [] ∧
    (StateManager.getNextTrackIndexOp st).2.1 = st ∧
    (StateManager.getNextTrackIndexOp st).2.2 = [] ∧
    (StateManager.getPreviousTrackIndexOp st).2.1 = st ∧
    (StateManager.getPreviousTrackIndexOp st).2.2 = [] :=
  ⟨rfl, rfl, rfl, rfl, rfl, rfl, rfl, rfl⟩

/-! ### C5: removeFromPlaylist -/

/-- **C5.** For every in-range index `i`, `removeFromPlaylist i`
removes exactly the entry at `i`, and adjusts `currentTrackIndex`:
decremented when `i` was before it, `-1` when the playlist becomes
empty, clamped (`min`) to the new last index when `i` was the current
index, and unchanged otherwise. -/
theorem removeFromPlaylist_spec {α : Type} (st : Store α) (i : Int)
    (h0 : 0 ≤ i) (h1 : i < (st.state.playlist.length : Int)) :
    (StateManager.removeFromPlaylist st i).1.state.playlist =
      st.state.playlist.eraseIdx i.toNat ∧
    (i < st.state.currentTrackIndex →
      (StateManager.removeFromPlaylist st i).1.state.currentTrackIndex =
        st.state.currentTrackIndex - 1) ∧
    (i = st.state.currentTrackIndex →
      (st.state.playlist.eraseIdx i.toNat = [] →
        (StateManager.removeFromPlaylist st i).1.state.currentTrackIndex = -1) ∧
      (st.state.playlist.eraseIdx i.toNat ≠ [] →
        (StateManager.removeFromPlaylist st i).1.state.currentTrackIndex =
          min st.state.currentTrackIndex
            (((st.state.playlist.eraseIdx i.toNat).length : Int) - 1))) ∧
    (st.state.currentTrackIndex < i →
      (StateManager.removeFromPlaylist st i).1.state.currentTrackIndex =
        st.state.currentTrackIndex) := by
  obtain ⟨hstate, -, -⟩ := removeFromPlaylist_result st i
  have hf : filterNotIdx st.state.playlist i =
      st.state.playlist.eraseIdx i.toNat := filterNotIdx_eraseIdx _ _ h0
  rw [hf] at hstate
  refine ⟨by rw [hstate], fun hlt => ?_,
    fun heq => ⟨fun hemp => ?_, fun hne => ?_⟩, fun hgt => ?_⟩
  · rw [hstate]
    simp [if_pos hlt]
  · have hlt : ¬(i < st.state.currentTrackIndex) := by omega
    rw [hstate]
    simp only [if_neg hlt, if_pos heq]
    rw [hemp]
    simp only [List.length_nil]
    omega
  · have hlt : ¬(i < st.state.currentTrackIndex) := by omega
    rw [hstate]
    simp [if_neg hlt, if_pos heq]
  · have hlt : ¬(i < st.state.currentTrackIndex) := by omega
    have hne : ¬(i = st.state.currentTrackIndex) := by omega
    rw [hstate]
    simp [if_neg hlt, if_neg hne]

/-- Witness for C5: playlist `[A, B, C]`, current = 2, remove index 2 —
the playlist becomes `[A, B]` and the current index clamps to 1. -/
theorem removeFromPlaylist_spec_witness :
    (StateManager.removeFromPlaylist
        (⟨⟨[10, 20, 30], 2, false, .off, [], .num 1, .str "dark", .num 1⟩,
          emptyStorage⟩ : Store Nat) 2).1.state.playlist = [10, 20] ∧
    (StateManager.removeFromPlaylist
        (⟨⟨[10, 20, 30], 2, false, .off, [], .num 1, .str "dark", .num 1⟩,
          emptyStorage⟩ : Store Nat) 2).1.state.currentTrackIndex = 1 := by
  have h := removeFromPlaylist_spec
    (⟨⟨[10, 20, 30], 2, false, .off, [], .num 1, .str "dark", .num 1⟩,
      emptyStorage⟩ : Store Nat) 2 (by decide) (by decide)
  refine ⟨h.1.trans (by decide), ?_⟩
  have h2 := (h.2.2.1 rfl).2 (by decide)
  exact h2.trans (by decide)

/-! ### C6: the currentTrackIndex invariant -/

/-- The index invariant from the spec's data model: `currentTrackIndex`
is `-1` or a valid playlist index. -/
def IdxInv {α : Type} (s : PlayerState α) : Prop :=
  s.currentTrackIndex = -1 ∨
    (0 ≤ s.currentTrackIndex ∧
      s.currentTrackIndex < (s.playlist.length : Int))

/-- **C6, counterexample.** From the state playlist `[A]`,
`currentTrackIndex = -1` (which satisfies the invariant),
`removeFromPlaylist (-2)` decrements `currentTrackIndex` to `-2`,
which is neither -1 nor a valid index. -/
theorem indexInvariant_counterexample :
    IdxInv (⟨[10], -1, false, .off, [], .num 1, .str "dark", .num 1⟩ :
      PlayerState Nat) ∧
    ¬ IdxInv (StateManager.removeFromPlaylist
        (⟨⟨[10], -1, false, .off, [], .num 1, .str "dark", .num 1⟩,
          emptyStorage⟩ : Store Nat) (-2)).1.state := by
  constructor
  · exact Or.inl rfl
  · intro hI
    have hc : (StateManager.removeFromPlaylist
        (⟨⟨[10], -1, false, .off, [], .num 1, .str "dark", .num 1⟩,
          emptyStorage⟩ : Store Nat) (-2)).1.state.currentTrackIndex = -2 := rfl
    rcases hI with h | ⟨h1, -⟩
    · rw [hc] at h
      exact absurd h (by decide)
    · rw [hc] at h1
      exact absurd h1 (by decide)

/-- **C6, amended.** The invariant "`currentTrackIndex` is -1 or a
valid playlist index" is preserved by `setPlaylist`, `addToPlaylist`,
`setCurrentTrack`, `toggleShuffle` and `cycleRepeatMode`
unconditionally, and by `removeFromPlaylist` for every index `≥ -1`
(an index `≤ -2` can push the current index below -1). -/
theorem indexInvariant_preserved {α : Type} (st : Store α)
    (hI : IdxInv st.state) :
    (∀ pl : List α, IdxInv (StateManager.setPlaylist st pl).1.state) ∧
    (∀ tracks : List α,
      IdxInv (StateManager.addToPlaylist st tracks).1.state) ∧
    (∀ i : Int, -1 ≤ i →
      IdxInv (StateManager.removeFromPlaylist st i).1.state) ∧
    (∀ i : Int, IdxInv (StateManager.setCurrentTrack st i).1.state) ∧
    (∀ g : Nat → Nat, IdxInv (StateManager.toggleShuffle st g).1.state) ∧
    IdxInv (StateManager.cycleRepeatMode st).1.state := by
  have hsetPl : ∀ pl : List α, IdxInv (StateManager.setPlaylist st pl).1.state := by
    intro pl
    rw [(setPlaylist_result st pl).1]
    by_cases h : pl.length > 0
    · right
      simp [IdxInv, h]
    · left
      simp [IdxInv, h]
  refine ⟨hsetPl, fun tracks => hsetPl _, fun i hi => ?_, fun i => ?_,
    fun g => ?_, ?_⟩
  · obtain ⟨hstate, -, -⟩ := removeFromPlaylist_result st i
    have hlenF : ((filterNotIdx st.state.playlist i).length : Int) =
        if 0 ≤ i ∧ i < (st.state.playlist.length : Int) then
          (st.state.playlist.length : Int) - 1
        else (st.state.playlist.length : Int) := by
      by_cases h : 0 ≤ i ∧ i < (st.state.playlist.length : Int)
      · rw [if_pos h, filterNotIdx_eraseIdx _ _ h.1]
        have hlt : i.toNat < st.state.playlist.length := by omega
        have := List.length_eraseIdx_add_one hlt
        omega
      · have h' : i < 0 ∨ (st.state.playlist.length : Int) ≤ i := by omega
        rw [if_neg h, filterNotIdx_out_of_range _ _ h']
    rw [hstate]
    simp only [IdxInv]
    by_cases hin : 0 ≤ i ∧ i < (st.state.playlist.length : Int)
    · rw [if_pos hin] at hlenF
      rcases hI with h | h <;> split_ifs <;> omega
    · rw [if_neg hin] at hlenF
      rcases hI with h | h <;> split_ifs <;> omega
  · by_cases hin : i ≥ 0 ∧ i < (st.state.playlist.length : Int)
    · have hst : (StateManager.setCurrentTrack st i).1.state =
          { st.state with currentTrackIndex := i } := by
        unfold StateManager.setCurrentTrack
        rw [if_pos hin]
        rfl
      rw [hst]
      simp only [IdxInv]
      right
      simpa using hin
    · have hst : StateManager.setCurrentTrack st i = (st, []) := by
        unfold StateManager.setCurrentTrack
        rw [if_neg hin]
      rw [hst]
      exact hI
  · rw [(toggleShuffle_result st g).1]
    simpa [IdxInv] using hI
  · obtain ⟨h1, h2, -, -⟩ := cycleRepeatMode_result st
    simp only [IdxInv] at hI ⊢
    rw [h1, h2]
    exact hI

/-- Witness for C6 (amended): a concrete store satisfying the
invariant still satisfies it after `removeFromPlaylist 0`. -/
theorem indexInvariant_preserved_witness :
    IdxInv (StateManager.removeFromPlaylist
      (⟨⟨[10, 20], 1, false, .off, [], .num 1, .str "dark", .num 1⟩,
        emptyStorage⟩ : Store Nat) 0).1.state := by
  have h := indexInvariant_preserved
    (⟨⟨[10, 20], 1, false, .off, [], .num 1, .str "dark", .num 1⟩,
      emptyStorage⟩ : Store Nat) (Or.inr ⟨by decide, by decide⟩)
  exact h.2.2.1 0 (by decide)

/-! ### C7: out-of-range indices -/

/-- **C7, counterexample.** `removeFromPlaylist (-1)` on playlist `[A]`
with current index 0 is not a no-op: the current index is decremented
to -1 and a `playlist:update` event is still published. -/
theorem invalidIndex_counterexample :
    (StateManager.removeFromPlaylist
        (⟨⟨[10], 0, false, .off, [], .num 1, .str "dark", .num 1⟩,
          emptyStorage⟩ : Store Nat) (-1)).1.state.currentTrackIndex = -1 ∧
    (⟨[10], 0, false, .off, [], .num 1, .str "dark", .num 1⟩ :
        PlayerState Nat).currentTrackIndex = 0 ∧
    (StateManager.removeFromPlaylist
        (⟨⟨[10], 0, false, .off, [], .num 1, .str "dark", .num 1⟩,
          emptyStorage⟩ : Store Nat) (-1)).2 = [PLAYLIST_UPDATE] :=
  ⟨rfl, rfl, rfl⟩

/-- **C7, amended.** `setCurrentTrack` with any out-of-range index
(negative included) is a complete no-op: identical store, no event.
`removeFromPlaylist` with an index `≥ playlist.length` leaves the state
and storage unchanged but still publishes a `playlist:update` event;
(for negative indices it can change the state, per the
counterexample). -/
theorem invalidIndex_spec {α : Type} (st : Store α) (i : Int)
    (hI : IdxInv st.state) :
    (i < 0 ∨ (st.state.playlist.length : Int) ≤ i →
      StateManager.setCurrentTrack st i = (st, [])) ∧
    ((st.state.playlist.length : Int) ≤ i →
      (StateManager.removeFromPlaylist st i).1.state = st.state ∧
      (StateManager.removeFromPlaylist st i).1.storage = st.storage ∧
      (StateManager.removeFromPlaylist st i).2 = [PLAYLIST_UPDATE]) := by
  constructor
  · intro hout
    have hneg : ¬(i ≥ 0 ∧ i < (st.state.playlist.length : Int)) := by omega
    unfold StateManager.setCurrentTrack
    rw [if_neg hneg]
  · intro hge
    obtain ⟨hstate, hstor, hev⟩ := removeFromPlaylist_result st i
    have hfi : filterNotIdx st.state.playlist i = st.state.playlist :=
      filterNotIdx_out_of_range _ _ (Or.inr hge)
    have hlt : ¬(i < st.state.currentTrackIndex) := by
      rcases hI with h | h <;> omega
    have heq : ¬(i = st.state.currentTrackIndex) := by
      rcases hI with h | h <;> omega
    refine ⟨?_, hstor, hev⟩
    rw [hstate, if_neg hlt, if_neg heq, hfi]

/-- Witness for C7 (amended): on playlist `[A]`, `setCurrentTrack 5`
returns the store untouched with no event, and `removeFromPlaylist 5`
keeps the state but emits `playlist:update`. -/
theorem invalidIndex_spec_witness :
    StateManager.setCurrentTrack
      (⟨⟨[10], 0, false, .off, [], .num 1, .str "dark", .num 1⟩,
        emptyStorage⟩ : Store Nat) 5 =
      ((⟨⟨[10], 0, false, .off, [], .num 1, .str "dark", .num 1⟩,
        emptyStorage⟩ : Store Nat), []) ∧
    (StateManager.removeFromPlaylist
      (⟨⟨[10], 0, false, .off, [], .num 1, .str "dark", .num 1⟩,
        emptyStorage⟩ : Store Nat) 5).1.state =
      (⟨[10], 0, false, .off, [], .num 1, .str "dark", .num 1⟩ :
        PlayerState Nat) := by
  have h := invalidIndex_spec
    (⟨⟨[10], 0, false, .off, [], .num 1, .str "dark", .num 1⟩,
      emptyStorage⟩ : Store Nat) 5 (Or.inr ⟨by decide, by decide⟩)
  exact ⟨h.1 (Or.inr (by decide)), (h.2 (by decide)).1⟩

/-! ### Permutation lemmas for the Fisher–Yates shuffle -/

theorem swapIdx_length (l : List Int) (i j : Nat) :
    (swapIdx l i j).length = l.length := by
  simp [swapIdx]

theorem set_perm_cons_eraseIdx {β : Type} :
    ∀ (l : List β) (i : Nat) (a : β), i < l.length →
      (l.set i a).Perm (a :: l.eraseIdx i)
  | x :: xs, 0, a, _ => by
    simp [List.eraseIdx]
  | x :: xs, i + 1, a, h => by
    have ih := set_perm_cons_eraseIdx xs i a (by simpa using h)
    show (x :: xs.set i a).Perm (a :: x :: xs.eraseIdx i)
    exact (ih.cons x).trans (List.Perm.swap a x _)

theorem perm_getD_cons_eraseIdx {β : Type} :
    ∀ (l : List β) (i : Nat) (d : β), i < l.length →
      l.Perm (l.getD i d :: l.eraseIdx i)
  | x :: xs, 0, d, _ => by
    simp [List.eraseIdx]
  | x :: xs, i + 1, d, h => by
    have ih := perm_getD_cons_eraseIdx xs i d (by simpa using h)
    show (x :: xs).Perm (xs.getD i d :: x :: xs.eraseIdx i)
    exact (ih.cons x).trans (List.Perm.swap _ x _)

theorem swapIdx_perm :
    ∀ (l : List Int) (i j : Nat), i < l.length → j < l.length →
      (swapIdx l i j).Perm l
  | x :: xs, 0, 0, _, _ => by
    simp [swapIdx]
  | x :: xs, 0, j + 1, _, hj => by
    have hj' : j < xs.length := by simpa using hj
    have h1 := set_perm_cons_eraseIdx xs j x hj'
    have h2 := perm_getD_cons_eraseIdx xs j 0 hj'
    show (xs.getD j 0 :: xs.set j x).Perm (x :: xs)
    exact ((h1.cons _).trans (List.Perm.swap x _ _)).trans (h2.symm.cons x)
  | x :: xs, i + 1, 0, hi, _ => by
    have hi' : i < xs.length := by simpa using hi
    have h1 := set_perm_cons_eraseIdx xs i x hi'
    have h2 := perm_getD_cons_eraseIdx xs i 0 hi'
    show (xs.getD i 0 :: xs.set i x).Perm (x :: xs)
    exact ((h1.cons _).trans (List.Perm.swap x _ _)).trans (h2.symm.cons x)
  | x :: xs, i + 1, j + 1, hi, hj => by
    have ih := swapIdx_perm xs i j (by simpa using hi) (by simpa using hj)
    show (x :: swapIdx xs i j).Perm (x :: xs)
    exact ih.cons x

theorem fyLoop_perm (g : Nat → Nat) (hg : ∀ k, g k ≤ k) :
    ∀ (n : Nat) (l : List Int), n < l.length → (fyLoop g n l).Perm l
  | 0, l, _ => List.Perm.refl l
  | n + 1, l, h => by
    have hj : g (n + 1) < l.length := lt_of_le_of_lt (hg (n + 1)) h
    have hswap := swapIdx_perm l (n + 1) (g (n + 1)) h hj
    have hlen := swapIdx_length l (n + 1) (g (n + 1))
    have ih := fyLoop_perm g hg n (swapIdx l (n + 1) (g (n + 1)))
      (by rw [hlen]; omega)
    exact ih.trans hswap

theorem fisherYates_perm (g : Nat → Nat) (hg : ∀ k, g k ≤ k)
    (l : List Int) : (fisherYates g l).Perm l := by
  cases l with
  | nil => exact List.Perm.refl _
  | cons x xs =>
    apply fyLoop_perm g hg
    simp

theorem perm_cons_filter_ne {β : Type} [DecidableEq β] :
    ∀ (l : List β) (c : β), l.Nodup → c ∈ l →
      (c :: l.filter fun x => x ≠ c).Perm l
  | a :: as, c, hnd, hmem => by
    by_cases hac : a = c
    · subst hac
      have hout : a ∉ as := (List.nodup_cons.mp hnd).1
      have hfil : as.filter (fun x => x ≠ a) = as :=
        List.filter_eq_self.mpr fun x hx => by
          simp only [decide_eq_true_eq]
          exact fun hxa => hout (hxa ▸ hx)
      have hstep : List.filter (fun x => decide (x ≠ a)) (a :: as) =
          List.filter (fun x => decide (x ≠ a)) as := by simp
      show (a :: List.filter (fun x => decide (x ≠ a)) (a :: as)).Perm (a :: as)
      rw [hstep, hfil]
    · have hmem' : c ∈ as := (List.mem_cons.mp hmem).resolve_left fun h =>
        hac h.symm
      have ih := perm_cons_filter_ne as c (List.nodup_cons.mp hnd).2 hmem'
      have hstep : List.filter (fun x => decide (x ≠ c)) (a :: as) =
          a :: List.filter (fun x => decide (x ≠ c)) as := by simp [hac]
      show (c :: List.filter (fun x => decide (x ≠ c)) (a :: as)).Perm (a :: as)
      rw [hstep]
      exact (List.Perm.swap a c _).trans (ih.cons a)

theorem rangeInt_nodup (n : Nat) : (rangeInt n).Nodup :=
  List.Nodup.map (fun _ _ h => Int.ofNat.inj h) (List.nodup_range n)

theorem rangeInt_length (n : Nat) : (rangeInt n).length = n := by
  rw [rangeInt, List.length_map, List.length_range]

theorem mem_rangeInt {n : Nat} {c : Int} :
    c ∈ rangeInt n ↔ 0 ≤ c ∧ c < (n : Int) := by
  simp only [rangeInt, List.mem_map, List.mem_range]
  constructor
  · rintro ⟨a, ha, rfl⟩
    simp only [Int.ofNat_eq_natCast]
    omega
  · rintro ⟨h0, hn⟩
    refine ⟨c.toNat, by omega, ?_⟩
    simp only [Int.ofNat_eq_natCast]
    omega

/-- Enabling shuffle with a valid current track: the new order starts
with the current index and permutes all valid playlist indices. -/
theorem toggleShuffle_enable_order {α : Type} (st : Store α)
    (g : Nat → Nat) (hg : ∀ k, g k ≤ k)
    (hoff : st.state.shuffleEnabled = false)
    (h0 : 0 ≤ st.state.currentTrackIndex)
    (hlen : st.state.currentTrackIndex < (st.state.playlist.length : Int)) :
    (StateManager.toggleShuffle st g).1.state.shuffledOrder.head? =
      some st.state.currentTrackIndex ∧
    (StateManager.toggleShuffle st g).1.state.shuffledOrder.Perm
      (rangeInt st.state.playlist.length) := by
  obtain ⟨hstate, -, -⟩ := toggleShuffle_result st g
  rw [hstate]
  have hord : ({ st.state with
      shuffleEnabled := !st.state.shuffleEnabled
      shuffledOrder :=
        if !st.state.shuffleEnabled then
          st.state.currentTrackIndex ::
            fisherYates g
              ((rangeInt st.state.playlist.length).filter
                fun i => i ≠ st.state.currentTrackIndex)
        else [] } : PlayerState α).shuffledOrder =
      st.state.currentTrackIndex ::
        fisherYates g
          ((rangeInt st.state.playlist.length).filter
            fun i => i ≠ st.state.currentTrackIndex) := by
    simp [hoff]
  rw [hord]
  refine ⟨rfl, ?_⟩
  have hfy := fisherYates_perm g hg
    ((rangeInt st.state.playlist.length).filter
      fun i => i ≠ st.state.currentTrackIndex)
  have hmem : st.state.currentTrackIndex ∈ rangeInt st.state.playlist.length :=
    mem_rangeInt.mpr ⟨h0, hlen⟩
  have hcf := perm_cons_filter_ne (rangeInt st.state.playlist.length)
    st.state.currentTrackIndex (rangeInt_nodup _) hmem
  exact (hfy.cons _).trans hcf

/-! ### C2: toggleShuffle builds a permutation -/

/-- **C2, counterexample.** With a non-empty playlist `[A]`, shuffle
disabled and `currentTrackIndex = -1` (no selection), `toggleShuffle`
produces `[-1, 0]`, which is not a permutation of the valid indices
`[0, 1)` — the claim fails when the current index is not a valid
playlist index. -/
theorem toggleShuffle_noCurrent_counterexample :
    (StateManager.toggleShuffle
        (⟨⟨[10], -1, false, .off, [], .num 1, .str "dark", .num 1⟩,
          emptyStorage⟩ : Store Nat) (fun _ => 0)).1.state.shuffledOrder =
      [-1, 0] ∧
    ¬ (StateManager.toggleShuffle
        (⟨⟨[10], -1, false, .off, [], .num 1, .str "dark", .num 1⟩,
          emptyStorage⟩ : Store Nat)
          (fun _ => 0)).1.state.shuffledOrder.Perm (rangeInt 1) := by
  constructor
  · rfl
  · decide

/-- **C2, amended.** For every state with shuffle disabled and a
*valid* `currentTrackIndex` (the claim fails for `currentTrackIndex =
-1`), enabling shuffle makes `shuffledOrder` a permutation of all valid
indices `[0, playlist.length)` whose first element is the current
index; toggling shuffle off sets `shuffledOrder` to the empty
sequence.  (`g` models the `Math.random` draws of the Fisher–Yates
loop: the draw at step `i` lies in `[0, i]`.) -/
theorem toggleShuffle_spec {α : Type} (st : Store α) (g : Nat → Nat)
    (hg : ∀ k, g k ≤ k) :
    (st.state.shuffleEnabled = false →
      0 ≤ st.state.currentTrackIndex →
      st.state.currentTrackIndex < (st.state.playlist.length : Int) →
      (StateManager.toggleShuffle st g).1.state.shuffledOrder.head? =
        some st.state.currentTrackIndex ∧
      (StateManager.toggleShuffle st g).1.state.shuffledOrder.Perm
        (rangeInt st.state.playlist.length)) ∧
    (st.state.shuffleEnabled = true →
      (StateManager.toggleShuffle st g).1.state.shuffledOrder = []) := by
  constructor
  · intro hoff h0 hlen
    exact toggleShuffle_enable_order st g hg hoff h0 hlen
  · intro hon
    obtain ⟨hstate, -, -⟩ := toggleShuffle_result st g
    rw [hstate]
    simp [hon]

/-- Witness for C2 (amended): playlist of length 3, current track 1,
random draws all 0 — the produced order is `[1, 2, 0]`: it starts with
the current index and permutes `{0, 1, 2}`. -/
theorem toggleShuffle_spec_witness :
    (StateManager.toggleShuffle
        (⟨⟨[10, 20, 30], 1, false, .off, [], .num 1, .str "dark", .num 1⟩,
          emptyStorage⟩ : Store Nat)
        (fun _ => 0)).1.state.shuffledOrder.head? = some 1 ∧
    (StateManager.toggleShuffle
        (⟨⟨[10, 20, 30], 1, false, .off, [], .num 1, .str "dark", .num 1⟩,
          emptyStorage⟩ : Store Nat)
        (fun _ => 0)).1.state.shuffledOrder.Perm (rangeInt 3) := by
  have h := (toggleShuffle_spec
    (⟨⟨[10, 20, 30], 1, false, .off, [], .num 1, .str "dark", .num 1⟩,
      emptyStorage⟩ : Store Nat)
    (fun _ => 0) (fun k => Nat.zero_le k)).1 rfl (by decide) (by decide)
  exact h

/-! ### C4: the shuffledOrder invariant -/

/-- The shuffle invariant from the spec's data model: a non-empty
`shuffledOrder` is exactly a permutation of `[0, playlist.length)`. -/
def PermInv {α : Type} (s : PlayerState α) : Prop :=
  s.shuffledOrder ≠ [] →
    s.shuffledOrder.Perm (rangeInt s.playlist.length)

/-- **C4, counterexample.** From playlist `[A, B]` with shuffle order
`[0, 1]` (a permutation of `[0, 2)`), `setPlaylist [A]` replaces the
playlist without touching the shuffle order: `[0, 1]` is not a
permutation of `[0, 1)`, so the invariant is broken. -/
theorem shuffleInvariant_counterexample :
    PermInv (⟨[10, 20], 0, true, .off, [0, 1], .num 1, .str "dark",
      .num 1⟩ : PlayerState Nat) ∧
    ¬ PermInv (StateManager.setPlaylist
        (⟨⟨[10, 20], 0, true, .off, [0, 1], .num 1, .str "dark", .num 1⟩,
          emptyStorage⟩ : Store Nat) [10]).1.state := by
  constructor
  · intro _
    decide
  · intro hP
    have h := hP (by decide)
    exact absurd h (by decide)

/-- **C4, amended.** The invariant "a non-empty `shuffledOrder` is a
permutation of `[0, playlist.length)`" is preserved by
`setCurrentTrack` and `cycleRepeatMode` unconditionally; by
`toggleShuffle` when it disables shuffle or the current index is a
valid playlist index; and by `setPlaylist`, `addToPlaylist` and
`removeFromPlaylist` only when the shuffle order is empty or the
playlist length is unchanged (the claim fails in general because these
three never touch `shuffledOrder` while resizing the playlist). -/
theorem shuffleInvariant_preserved {α : Type} (st : Store α)
    (hP : PermInv st.state) :
    (∀ pl : List α,
      st.state.shuffledOrder = [] ∨ pl.length = st.state.playlist.length →
      PermInv (StateManager.setPlaylist st pl).1.state) ∧
    (∀ tracks : List α,
      st.state.shuffledOrder = [] ∨ tracks = [] →
      PermInv (StateManager.addToPlaylist st tracks).1.state) ∧
    (∀ i : Int,
      st.state.shuffledOrder = [] ∨ i < 0 ∨
        (st.state.playlist.length : Int) ≤ i →
      PermInv (StateManager.removeFromPlaylist st i).1.state) ∧
    (∀ i : Int, PermInv (StateManager.setCurrentTrack st i).1.state) ∧
    (∀ g : Nat → Nat, (∀ k, g k ≤ k) →
      st.state.shuffleEnabled = true ∨
        (0 ≤ st.state.currentTrackIndex ∧
          st.state.currentTrackIndex < (st.state.playlist.length : Int)) →
      PermInv (StateManager.toggleShuffle st g).1.state) ∧
    PermInv (StateManager.cycleRepeatMode st).1.state := by
  have hsetPl : ∀ pl : List α,
      st.state.shuffledOrder = [] ∨ pl.length = st.state.playlist.length →
      PermInv (StateManager.setPlaylist st pl).1.state := by
    intro pl hc
    rw [(setPlaylist_result st pl).1]
    show st.state.shuffledOrder ≠ [] →
      st.state.shuffledOrder.Perm (rangeInt pl.length)
    intro hne
    rcases hc with hord | hlen
    · exact absurd hord hne
    · rw [hlen]
      exact hP hne
  refine ⟨hsetPl, fun tracks hc => hsetPl _ ?_, fun i hc => ?_, fun i => ?_,
    fun g hg hc => ?_, ?_⟩
  · rcases hc with hord | htr
    · exact Or.inl hord
    · right
      rw [htr, List.append_nil]
  · rw [(removeFromPlaylist_result st i).1]
    show st.state.shuffledOrder ≠ [] →
      st.state.shuffledOrder.Perm
        (rangeInt (filterNotIdx st.state.playlist i).length)
    intro hne
    rcases hc with hord | hout
    · exact absurd hord hne
    · rw [filterNotIdx_out_of_range _ _ hout]
      exact hP hne
  · by_cases hin : i ≥ 0 ∧ i < (st.state.playlist.length : Int)
    · have hst : (StateManager.setCurrentTrack st i).1.state =
          { st.state with currentTrackIndex := i } := by
        unfold StateManager.setCurrentTrack
        rw [if_pos hin]
        rfl
      rw [hst]
      exact hP
    · have hst : StateManager.setCurrentTrack st i = (st, []) := by
        unfold StateManager.setCurrentTrack
        rw [if_neg hin]
      rw [hst]
      exact hP
  · by_cases hsh : st.state.shuffleEnabled = true
    · obtain ⟨hstate, -, -⟩ := toggleShuffle_result st g
      rw [hstate]
      show (if !st.state.shuffleEnabled then _ else ([] : List Int)) ≠ [] → _
      rw [hsh]
      intro hne
      exact absurd rfl hne
    · have hoff : st.state.shuffleEnabled = false :=
        Bool.eq_false_iff.mpr hsh
      rcases hc with hon | ⟨h0, hlen⟩
      · exact absurd hon hsh
      · have h := (toggleShuffle_enable_order st g hg hoff h0 hlen).2
        obtain ⟨hstate, -, -⟩ := toggleShuffle_result st g
        intro hne
        have hpl : (StateManager.toggleShuffle st g).1.state.playlist =
            st.state.playlist := by
          rw [hstate]
        rw [hpl]
        exact h
  · obtain ⟨h1, -, h3, -⟩ := cycleRepeatMode_result st
    show (StateManager.cycleRepeatMode st).1.state.shuffledOrder ≠ [] → _
    rw [h1, h3]
    exact hP

/-- Witness for C4 (amended): a concrete store satisfying the invariant
(shuffle off, order empty, current = 0 on `[A, B]`) still satisfies it
after enabling shuffle with all random draws 0. -/
theorem shuffleInvariant_preserved_witness :
    PermInv (StateManager.toggleShuffle
      (⟨⟨[10, 20], 0, false, .off, [], .num 1, .str "dark", .num 1⟩,
        emptyStorage⟩ : Store Nat) (fun _ => 0)).1.state := by
  have h := shuffleInvariant_preserved
    (⟨⟨[10, 20], 0, false, .off, [], .num 1, .str "dark", .num 1⟩,
      emptyStorage⟩ : Store Nat) (fun hne => absurd rfl hne)
  exact h.2.2.2.2.1 (fun _ => 0) (fun k => Nat.zero_le k)
    (Or.inr ⟨by decide, by decide⟩)

/-! ### C8: duplicate subscriptions on the EventBus -/

/-- **C8, counterexample.** Subscribing the same handler to the same
topic twice on a fresh bus yields listener count 1 (not 2), and a
publish invokes the handler once (not twice): the callbacks live in a
JS `Set`, which deduplicates. -/
theorem eventBus_duplicate_counterexample :
    EventBus.listenerCount (((EventBus.empty Nat).«on» "t" 0).«on» "t" 0)
      "t" = 1 ∧
    ¬ EventBus.listenerCount (((EventBus.empty Nat).«on» "t" 0).«on» "t" 0)
      "t" = 2 ∧
    (EventBus.emitCalls (((EventBus.empty Nat).«on» "t" 0).«on» "t" 0)
      "t").count 0 = 1 := by
  refine ⟨by decide, by decide, by decide⟩

theorem on_events_self {κ : Type} [DecidableEq κ] (b : EventBus κ)
    (e : String) (cb : κ) :
    (b.«on» e cb).events e =
      some (if cb ∈ (b.events e).getD [] then (b.events e).getD []
            else (b.events e).getD [] ++ [cb]) := by
  show (if e = e then _ else _) = _
  rw [if_pos rfl]

theorem off_events {κ : Type} [DecidableEq κ] (b : EventBus κ)
    (e : String) (cb : κ) (l : List κ) (h : b.events e = some l) (t : String) :
    (b.off e cb).events t =
      if t = e then some (l.erase cb) else b.events t := by
  unfold EventBus.off
  rw [h]

/-- **C8, amended.** Subscribing the same handler to the same topic
twice is idempotent, not a second registration: when the handler is
not yet registered, the listener count after two subscribes is the old
count plus one (not two), the second subscribe leaves the bus pointwise
unchanged, a publish invokes the handler exactly once, the first
unsubscribe removes the single registration, and the second
unsubscribe is a no-op. -/
theorem eventBus_duplicate_spec {κ : Type} [DecidableEq κ]
    (b : EventBus κ) (e : String) (cb : κ)
    (hnew : cb ∉ (b.events e).getD []) :
    EventBus.listenerCount ((b.«on» e cb).«on» e cb) e =
      EventBus.listenerCount b e + 1 ∧
    (∀ t, ((b.«on» e cb).«on» e cb).events t = (b.«on» e cb).events t) ∧
    (EventBus.emitCalls ((b.«on» e cb).«on» e cb) e).count cb = 1 ∧
    (EventBus.emitCalls (((b.«on» e cb).«on» e cb).off e cb) e).count cb
      = 0 ∧
    (∀ t, ((((b.«on» e cb).«on» e cb).off e cb).off e cb).events t =
      (((b.«on» e cb).«on» e cb).off e cb).events t) := by
  have hb1 : (b.«on» e cb).events e =
      some ((b.events e).getD [] ++ [cb]) := by
    rw [on_events_self, if_neg hnew]
  have hb2 : ((b.«on» e cb).«on» e cb).events e =
      some ((b.events e).getD [] ++ [cb]) := by
    rw [on_events_self, hb1]
    simp
  have hcnt0 : ((b.events e).getD []).count cb = 0 :=
    List.count_eq_zero.mpr hnew
  have herase : ((b.events e).getD [] ++ [cb]).erase cb =
      (b.events e).getD [] := by
    rw [List.erase_append_right _ hnew]
    simp
  have hoff1 : ∀ t, ((((b.«on» e cb).«on» e cb)).off e cb).events t =
      if t = e then some ((b.events e).getD [])
      else ((b.«on» e cb).«on» e cb).events t := by
    intro t
    rw [off_events _ e cb _ hb2 t, herase]
  refine ⟨?_, ?_, ?_, ?_, ?_⟩
  · unfold EventBus.listenerCount
    rw [hb2]
    simp
  · intro t
    by_cases ht : t = e
    · subst ht
      rw [hb2, hb1]
    · show (if t = e then _ else (b.«on» e cb).events t) = _
      rw [if_neg ht]
  · unfold EventBus.emitCalls
    rw [hb2]
    simp [hcnt0]
  · unfold EventBus.emitCalls
    rw [hoff1 e, if_pos rfl]
    simpa using hcnt0
  · intro t
    have hsrc : ((((b.«on» e cb).«on» e cb)).off e cb).events e =
        some ((b.events e).getD []) := by
      rw [hoff1 e, if_pos rfl]
    rw [off_events _ e cb _ hsrc t]
    by_cases ht : t = e
    · subst ht
      rw [if_pos rfl, List.erase_of_not_mem hnew, hsrc]
    · rw [if_neg ht]

/-- Witness for C8 (amended): fresh bus, topic `"t"`, handler `0` —
two subscribes give count 1 and one invocation per publish. -/
theorem eventBus_duplicate_spec_witness :
    EventBus.listenerCount (((EventBus.empty Nat).«on» "x" 7).«on» "x" 7)
      "x" = EventBus.listenerCount (EventBus.empty Nat) "x" + 1 ∧
    (EventBus.emitCalls (((EventBus.empty Nat).«on» "x" 7).«on» "x" 7)
      "x").count 7 = 1 := by
  have h := eventBus_duplicate_spec (EventBus.empty Nat) "x" 7 (by decide)
  exact ⟨h.1, h.2.2.1⟩

/-! ### C9: persistence round-trip -/

theorem storageSet_data_self (g : Storage) (k : String) (v : StoreVal)
    (hw : g.writeOk k (g.stringify v) = true) :
    (storageSet g k v).data k = some (g.stringify v) := by
  simp [storageSet, hw]

theorem storageSet_parse (g : Storage) (k : String) (v : StoreVal) :
    (storageSet g k v).parse = g.parse := by
  unfold storageSet
  dsimp only
  split <;> rfl

theorem storageGet_of_data (g : Storage) (k : String) (item : String)
    (hd : g.data k = some item) (d : StoreVal) :
    storageGet g k d = (g.parse item).getD d := by
  unfold storageGet
  rw [hd]
  show (match g.parse item with | some v => v | none => d) =
    (g.parse item).getD d
  cases g.parse item <;> rfl

theorem loadPersistedState_volume {α : Type} (g : Storage)
    (s : PlayerState α) (q : StoreVal)
    (h : storageGet g VOLUME_KEY .null = q) (h0 : q ≠ .null) :
    (StateManager.loadPersistedState g s).volume = q := by
  unfold StateManager.loadPersistedState
  dsimp only
  rw [h, if_pos h0]
  split <;> (try split) <;> rfl

theorem loadPersistedState_theme {α : Type} (g : Storage)
    (s : PlayerState α) (tv : StoreVal)
    (h : storageGet g THEME_KEY .null = tv) (htv : jsTruthy tv = true) :
    (StateManager.loadPersistedState g s).theme = tv := by
  unfold StateManager.loadPersistedState
  dsimp only
  rw [h]
  simp only [htv, if_true]
  split <;> (try split) <;> rfl

theorem loadPersistedState_playbackRate {α : Type} (g : Storage)
    (s : PlayerState α) (rv : StoreVal)
    (h : storageGet g PLAYBACK_SPEED_KEY .null = rv) (h0 : rv ≠ .null) :
    (StateManager.loadPersistedState g s).playbackRate = rv := by
  unfold StateManager.loadPersistedState
  dsimp only
  rw [h, if_pos h0]

theorem persistState_other_key {α : Type} (g : Storage) (u : Updates α)
    (k : String) (h1 : k ≠ VOLUME_KEY) (h2 : k ≠ THEME_KEY)
    (h3 : k ≠ PLAYBACK_SPEED_KEY) : (persistState g u).data k = g.data k := by
  obtain ⟨up, uc, us, ur, uso, uv, ut, upr⟩ := u
  cases uv <;> cases ut <;> cases upr <;>
    simp only [persistState, storageSet] <;>
    split_ifs <;>
    simp [h1, h2, h3]

/-- **C9.** `set({volume: v})` stores `JSON.stringify(v)` in durable
storage under the fixed volume key, and a freshly constructed
StateManager over that storage reads `v` back as its initial volume;
the same holds for theme and playbackRate under their keys; and `set`
writes no storage key other than these three, whatever the update.
The hypotheses state the claim's presuppositions about the host
environment: the storage writes succeed (helpers.js swallows a quota
exception, leaving the session in-memory-only — spec §7), the host
JSON codec round-trips the stored values (the JSON guarantee for
numbers and strings), and the values lie in the persisted domain
(non-null; for theme, truthy, since `if (savedTheme)` drops a falsy
stored theme and the theme enum values dark/light are truthy). -/
theorem persistence_roundtrip {α : Type} (st : Store α)
    (q tv rv : StoreVal) (u : Updates α) (ev : Option String) (k : String)
    (hqp : st.storage.parse (st.storage.stringify q) = some q)
    (htp : st.storage.parse (st.storage.stringify tv) = some tv)
    (hrp : st.storage.parse (st.storage.stringify rv) = some rv)
    (hwq : st.storage.writeOk VOLUME_KEY (st.storage.stringify q) = true)
    (hwt : st.storage.writeOk THEME_KEY (st.storage.stringify tv) = true)
    (hwr : st.storage.writeOk PLAYBACK_SPEED_KEY (st.storage.stringify rv)
      = true)
    (hq0 : q ≠ .null) (htv : jsTruthy tv = true) (hr0 : rv ≠ .null) :
    ((StateManager.set st
        { (Updates.empty : Updates α) with volume := some q } none).1.storage.data
          VOLUME_KEY = some (st.storage.stringify q) ∧
      (StateManager.mk α (StateManager.set st
        { (Updates.empty : Updates α) with volume := some q }
        none).1.storage).state.volume = q) ∧
    ((StateManager.set st
        { (Updates.empty : Updates α) with theme := some tv } none).1.storage.data
          THEME_KEY = some (st.storage.stringify tv) ∧
      (StateManager.mk α (StateManager.set st
        { (Updates.empty : Updates α) with theme := some tv }
        none).1.storage).state.theme = tv) ∧
    ((StateManager.set st
        { (Updates.empty : Updates α) with playbackRate := some rv }
        none).1.storage.data PLAYBACK_SPEED_KEY =
          some (st.storage.stringify rv) ∧
      (StateManager.mk α (StateManager.set st
        { (Updates.empty : Updates α) with playbackRate := some rv }
        none).1.storage).state.playbackRate = rv) ∧
    (k ≠ VOLUME_KEY → k ≠ THEME_KEY → k ≠ PLAYBACK_SPEED_KEY →
      (StateManager.set st u ev).1.storage.data k = st.storage.data k) := by
  have hvd : (StateManager.set st
      { (Updates.empty : Updates α) with volume := some q } none).1.storage.data
        VOLUME_KEY = some (st.storage.stringify q) :=
    storageSet_data_self st.storage VOLUME_KEY q hwq
  have hvparse : (StateManager.set st
      { (Updates.empty : Updates α) with volume := some q }
      none).1.storage.parse = st.storage.parse :=
    storageSet_parse st.storage VOLUME_KEY q
  have hvget : storageGet (StateManager.set st
      { (Updates.empty : Updates α) with volume := some q }
      none).1.storage VOLUME_KEY .null = q := by
    rw [storageGet_of_data _ _ _ hvd, hvparse, hqp]
    rfl
  have htd : (StateManager.set st
      { (Updates.empty : Updates α) with theme := some tv } none).1.storage.data
        THEME_KEY = some (st.storage.stringify tv) :=
    storageSet_data_self st.storage THEME_KEY tv hwt
  have htparse : (StateManager.set st
      { (Updates.empty : Updates α) with theme := some tv }
      none).1.storage.parse = st.storage.parse :=
    storageSet_parse st.storage THEME_KEY tv
  have htget : storageGet (StateManager.set st
      { (Updates.empty : Updates α) with theme := some tv }
      none).1.storage THEME_KEY .null = tv := by
    rw [storageGet_of_data _ _ _ htd, htparse, htp]
    rfl
  have hrd : (StateManager.set st
      { (Updates.empty : Updates α) with playbackRate := some rv }
      none).1.storage.data PLAYBACK_SPEED_KEY =
        some (st.storage.stringify rv) :=
    storageSet_data_self st.storage PLAYBACK_SPEED_KEY rv hwr
  have hrparse : (StateManager.set st
      { (Updates.empty : Updates α) with playbackRate := some rv }
      none).1.storage.parse = st.storage.parse :=
    storageSet_parse st.storage PLAYBACK_SPEED_KEY rv
  have hrget : storageGet (StateManager.set st
      { (Updates.empty : Updates α) with playbackRate := some rv }
      none).1.storage PLAYBACK_SPEED_KEY .null = rv := by
    rw [storageGet_of_data _ _ _ hrd, hrparse, hrp]
    rfl
  refine ⟨⟨hvd, loadPersistedState_volume _ _ q hvget hq0⟩,
    ⟨htd, loadPersistedState_theme _ _ tv htget htv⟩,
    ⟨hrd, loadPersistedState_playbackRate _ _ rv hrget hr0⟩,
    fun h1 h2 h3 => persistState_other_key st.storage u k h1 h2 h3⟩

/-- A concrete host environment for the C9 witness: empty storage,
writes accepted, and a JSON codec that round-trips the three values
the witness stores (any codec satisfying the theorem's round-trip
hypotheses at the stored values would do). -/
def demoStorage : Storage where
  data := fun _ => none
  writeOk := fun _ _ => true
  stringify := fun v =>
    match v with
    | .num q => if q = 3 then "3" else if q = 2 then "2" else "num"
    | .str s => if s = "light" then "\"light\"" else "str"
    | .null => "null"
  parse := fun item =>
    if item = "3" then some (.num 3)
    else if item = "2" then some (.num 2)
    else if item = "\"light\"" then some (.str "light")
    else none

/-- Witness for C9: over `demoStorage`, volume 3 round-trips through
the volume key into a fresh store, and the key `"other"` is never
written. -/
theorem persistence_roundtrip_witness :
    (StateManager.mk Nat (StateManager.set
      (⟨⟨[], -1, false, .off, [], .num 1, .str "dark", .num 1⟩,
        demoStorage⟩ : Store Nat)
      { (Updates.empty : Updates Nat) with volume := some (.num 3) }
      none).1.storage).state.volume = .num 3 ∧
    (StateManager.set
      (⟨⟨[], -1, false, .off, [], .num 1, .str "dark", .num 1⟩,
        demoStorage⟩ : Store Nat)
      (Updates.empty : Updates Nat) none).1.storage.data "other" = none := by
  have h := persistence_roundtrip
    (⟨⟨[], -1, false, .off, [], .num 1, .str "dark", .num 1⟩,
      demoStorage⟩ : Store Nat)
    (.num 3) (.str "light") (.num 2) (Updates.empty : Updates Nat)
    none "other" (by decide) (by decide) (by decide) (by decide) (by decide)
    (by decide) (by decide) (by decide) (by decide)
  exact ⟨h.1.2, h.2.2.2 (by decide) (by decide) (by decide)⟩

end LASPlayer
